import Mathlib

/-!
Shallow embedding of the pySDC IMEX first-order sweeper
(`pySDC/sweeper_classes/imex_1st_order.py`) and the bit-flip fault plugin
(`pySDC/Plugins/bitflip.py`), together with proofs about the sweeper's
node-update algorithm, its integration routine, its end-point computation,
its retry policy and its fault-injection behaviour.

Numeric scalars are modelled as exact rationals; state vectors as functions
from (spatial) indices to rationals.  The Level, collocation table and
problem collaborators are not part of the analysed sources, so their data
layout is modelled from the specification; the sweeper's methods are
translated statement by statement from the Python source.
-/

namespace PySDC

/-- Modelled from the spec: the StateVector, an "ordered, fixed-length
numeric buffer" supporting elementwise add, scalar-multiply and an
infinity norm (the concrete datatypes module is not among the analysed
sources).  Represented as a function from spatial index to an exact
rational scalar; the problem's `nvars` bounds the indices in use. -/
abbrev SV : Type := Nat → ℚ

/-- Modelled from the spec: the SplitRHS pair `(implicit, explicit)`
produced by the problem's right-hand-side evaluation. -/
structure SplitRHS where
  impl : SV
  expl : SV

/-- Modelled from the spec: the Level status record `{unlocked, updated}`. -/
structure LStatus where
  unlocked : Bool
  updated : Bool

/-- Modelled from the spec: the Level data record.  `u 0` is the initial
value and `u m` (1 ≤ m ≤ M) the solution at collocation node m; `f m` the
split right-hand side at node m; `oldres m` the previous residual at node
m; `tau` the optional FAS correction (entries 0..M-1, the Python `tau[-1]`
is entry M-1); `uend` the value at the right interval end written by
`compute_end_point`. -/
structure Level where
  u : Nat → SV
  f : Nat → SplitRHS
  oldres : Nat → ℚ
  tau : Option (Nat → SV)
  dt : ℚ
  time : ℚ
  uend : SV
  status : LStatus

/-- Modelled from the spec: the immutable collocation table with
`num_nodes` = M, quadrature matrix `Qmat` (rows/columns 0..M), spacings
`delta_m` (entries 0..M-1), `nodes` (entries 0..M-1, points in [0,1]),
quadrature `weights` (entries 0..M-1) and the `right_is_node` flag. -/
structure Coll where
  num_nodes : Nat
  Qmat : Nat → Nat → ℚ
  delta_m : Nat → ℚ
  nodes : Nat → ℚ
  weights : Nat → ℚ
  right_is_node : Bool

/-- Modelled from the spec: the external problem collaborator, exposing
the implicit solver and the split right-hand-side evaluation, plus the
number of spatial variables `nvars` used by the fault injector.  The
sweeper calls `solve_system rhs factor guess` and `eval_f u t` exactly as
the Python source does. -/
structure Problem where
  nvars : Nat
  solve_system : SV → ℚ → SV → SV
  eval_f : SV → ℚ → SplitRHS

/-- Abstraction of the IEEE-754 single-precision conversions
`__floatToBits` / `__bitsToFloat` of `pySDC/Plugins/bitflip.py` (floating
point representations are kept abstract; the bit pattern is a natural
number below 2^32).  The xor-mask structure of `do_bitflip` itself is
translated from the source. -/
structure FloatCodec where
  floatToBits : ℚ → Nat
  bitsToFloat : Nat → ℚ

/-- `do_bitflip` from `pySDC/Plugins/bitflip.py`: reinterpret the value as
its bit pattern, xor with `1 <<< pos`, reinterpret back. -/
def do_bitflip (cdc : FloatCodec) (a : ℚ) (pos : Nat) : ℚ :=
  cdc.bitsToFloat (Nat.xor (cdc.floatToBits a) (Nat.shiftLeft 1 pos))

/-- Model of Python's global `random` source: a stream of draws and a
cursor.  `randrange n` consumes one draw and reduces it modulo `n`;
quantifying over all streams covers every possible sequence of results. -/
structure RNG where
  seq : Nat → Nat
  k : Nat

/-- Model of `random.randrange(n)`: pick the next draw, reduced mod `n`. -/
def randrange (n : Nat) (g : RNG) : Nat × RNG :=
  (g.seq g.k % n, ⟨g.seq, g.k + 1⟩)

/-- One numpy slice assignment `A[r, lo:hi] = vals[0:hi-lo]` on a matrix
represented as a function. -/
def setSlice (A : Nat → Nat → ℚ) (r lo hi : Nat) (vals : Nat → ℚ) :
    Nat → Nat → ℚ :=
  fun i j => if i = r ∧ lo ≤ j ∧ j < hi then vals (j - lo) else A i j

/-- One iteration of the loop body of `__get_Qd`:
`QI[m, 1:m+1] = delta_m[0:m]` and `QE[m, 0:m] = delta_m[0:m]`. -/
def QdStep (c : Coll) (p : (Nat → Nat → ℚ) × (Nat → Nat → ℚ)) (m : Nat) :
    (Nat → Nat → ℚ) × (Nat → Nat → ℚ) :=
  (setSlice p.1 m 1 (m + 1) c.delta_m, setSlice p.2 m 0 m c.delta_m)

/-- `__get_Qd` of `imex_1st_order`: start from zero matrices and run the
slice assignments for every row `m = 0..M`. -/
def get_Qd (c : Coll) : (Nat → Nat → ℚ) × (Nat → Nat → ℚ) :=
  (List.range (c.num_nodes + 1)).foldl (QdStep c) (fun _ _ => 0, fun _ _ => 0)

/-- The sweeper object: its collocation table and the IMEX integration
matrices stored at construction time. -/
structure Sweeper where
  coll : Coll
  QI : Nat → Nat → ℚ
  QE : Nat → Nat → ℚ

/-- `imex_1st_order.__init__`: store the collocation table and the two
matrices produced by `__get_Qd`. -/
def imex_1st_order (c : Coll) : Sweeper :=
  ⟨c, (get_Qd c).1, (get_Qd c).2⟩

/-- `imex_1st_order.integrate`: for each node m = 1..M build the quadrature
of the full right-hand side, starting from a fresh zero vector and adding
`dt * Qmat[m, j] * (f[j].impl + f[j].expl)` for j = 1..M. -/
def integrate (S : Sweeper) (L : Level) : List SV :=
  (List.range' 1 S.coll.num_nodes).map (fun m =>
    (List.range' 1 S.coll.num_nodes).foldl
      (fun acc j => acc + (L.dt * S.coll.Qmat m j) • ((L.f j).impl + (L.f j).expl))
      (0 : SV))

/-- The preparation block of `update_nodes` (source lines 96-106): take
`integrate()`, subtract `dt * (QI[m+1, j] * f[j].impl + QE[m+1, j] * f[j].expl)`
for j = 0..M, add `u[0]`, and add `tau[m]` when `tau` is present. -/
def prepare_integral (S : Sweeper) (L : Level) : List SV :=
  (List.range S.coll.num_nodes).map (fun m =>
    let v1 := (List.range (S.coll.num_nodes + 1)).foldl
      (fun acc j => acc - L.dt • (S.QI (m + 1) j • (L.f j).impl + S.QE (m + 1) j • (L.f j).expl))
      ((integrate S L).getD m 0)
    let v2 := v1 + L.u 0
    match L.tau with
    | some τ => v2 + τ m
    | none => v2)

/-- A fault-injection event: node (1-based), spatial index, bit position,
value before and value after the flip, as printed by the source. -/
structure InjEvent where
  node : Nat
  index : Nat
  pos : Nat
  pre : ℚ
  post : ℚ

/-- The mutable state threaded through one call of `update_nodes`: the
level, the random source, the `bitflipped` note, the log of injected
faults and the number of implicit solves performed so far. -/
structure SwState where
  L : Level
  g : RNG
  bitflipped : Bool
  events : List InjEvent
  solves : Nat

/-- The rhs built at node m (0-based loop index, node m+1): copy
`integral[m]` and add `dt * (QI[m+1, j] * f[j].impl + QE[m+1, j] * f[j].expl)`
for j = 0..m (source lines 117-119). -/
def rhs_node (S : Sweeper) (L : Level) (intg : SV) (m : Nat) : SV :=
  (List.range (m + 1)).foldl
    (fun acc j => acc + L.dt • (S.QI (m + 1) j • (L.f j).impl + S.QE (m + 1) j • (L.f j).expl))
    intg

/-- The residual vector at node `mi` (source lines 154-157):
`u[0] + sum_{j=1..M} dt * Qmat[mi, j] * (f[j].impl + f[j].expl) - u[mi]`. -/
def residual_node (S : Sweeper) (L : Level) (mi : Nat) : SV :=
  ((List.range' 1 S.coll.num_nodes).foldl
    (fun acc j => acc + (L.dt * S.coll.Qmat mi j) • ((L.f j).impl + (L.f j).expl))
    (L.u 0)) - L.u mi

/-- `np.linalg.norm(v, np.inf)` on the first `n` components. -/
def normInf (n : Nat) (v : SV) : ℚ :=
  ((List.range n).map (fun i => abs (v i))).foldr max 0

/-- The fault-injection block of `update_nodes` (source lines 127-151):
if injection is requested and no bit has been flipped yet this sweep, flip
a coin; on success draw a spatial index and a bit position below 31,
overwrite that entry of `f[m+1].impl` with its bit-flipped value, log the
event and set the `bitflipped` note. -/
def flip_block (P : Problem) (cdc : FloatCodec) (m : Nat) (flip : Bool)
    (st : SwState) : SwState :=
  if flip ∧ st.bitflipped = false then
    let c := randrange 2 st.g
    if c.1 = 1 then
      let ix := randrange P.nvars c.2
      let ps := randrange 31 ix.2
      let fm := st.L.f (m + 1)
      let pre := fm.impl ix.1
      let post := do_bitflip cdc pre ps.1
      { st with
        L := { st.L with
          f := Function.update st.L.f (m + 1) ⟨Function.update fm.impl ix.1 post, fm.expl⟩ },
        g := ps.2,
        bitflipped := true,
        events := st.events ++ [⟨m + 1, ix.1, ps.1, pre, post⟩] }
    else { st with g := c.2 }
  else st

/-- One pass through the body of the `while loop < 2` loop at node m
(source lines 116-158): build the rhs, perform the implicit solve with
prefactor `dt * QI[m+1, m+1]` and initial guess the current `u[m+1]`,
re-evaluate `f[m+1]` at `time + dt * nodes[m]`, run the fault-injection
block, and compute the new residual norm.  Returns the new state and the
residual norm used by the retry decision. -/
def attempt (S : Sweeper) (P : Problem) (cdc : FloatCodec) (intg : SV)
    (m : Nat) (flip : Bool) (st : SwState) : SwState × ℚ :=
  let L := st.L
  let rhs := rhs_node S L intg m
  let unew := P.solve_system rhs (L.dt * S.QI (m + 1) (m + 1)) (L.u (m + 1))
  let fnew := P.eval_f unew (L.time + L.dt * S.coll.nodes m)
  let L2 := { L with
    u := Function.update L.u (m + 1) unew,
    f := Function.update L.f (m + 1) fnew }
  let st2 := flip_block P cdc m flip { st with L := L2 }
  let newres := normInf P.nvars (residual_node S st2.L (m + 1))
  ({ st2 with solves := st.solves + 1 }, newres)

/-- Write `oldres[mi] := r`. -/
def set_oldres (st : SwState) (mi : Nat) (r : ℚ) : SwState :=
  { st with L := { st.L with oldres := Function.update st.L.oldres mi r } }

/-- The `while loop < 2` loop at node m (source lines 112-172), with the
Python loop counter made explicit and a fuel argument making the recursion
structural.  From `loop = 0`: if the fresh residual exceeds `oldres[m+1]`
the step is repeated with `loop = 1` and nothing is recorded; in every
other case `oldres[m+1] := newres` and the loop ends with `loop = 2`. -/
def node_loop (S : Sweeper) (P : Problem) (cdc : FloatCodec) (intg : SV)
    (m : Nat) (flip : Bool) : Nat → Nat → SwState → SwState
  | 0, _, st => st
  | fuel + 1, loop, st =>
    if loop < 2 then
      let p := attempt S P cdc intg m flip st
      if loop = 0 ∧ p.2 > p.1.L.oldres (m + 1) then
        node_loop S P cdc intg m flip fuel 1 p.1
      else
        node_loop S P cdc intg m flip fuel 2 (set_oldres p.1 (m + 1) p.2)
    else st

/-- The node sweep of `update_nodes` after the preparation block: fold the
per-node loop over m = 0..M-1 in increasing order, starting with a fresh
`bitflipped` note, no events and no solves. -/
def sweep_fold (S : Sweeper) (P : Problem) (cdc : FloatCodec) (flip : Bool)
    (igl : List SV) (n : Nat) (st0 : SwState) : SwState :=
  (List.range n).foldl
    (fun st m => node_loop S P cdc (igl.getD m 0) m flip 2 0 st) st0

/-- The whole body of `update_nodes` after the precondition check: prepare
the integral terms once, sweep over all nodes, then set
`status.updated := true`. -/
def sweep_body (S : Sweeper) (P : Problem) (cdc : FloatCodec) (flip : Bool)
    (L : Level) (g : RNG) : SwState :=
  let igl := prepare_integral S L
  let st1 := sweep_fold S P cdc flip igl S.coll.num_nodes ⟨L, g, false, [], 0⟩
  { st1 with L := { st1.L with status := { st1.L.status with updated := true } } }

/-- The failure raised by `assert L.status.unlocked` (the spec names it
`PreconditionError`). -/
inductive SweepError where
  | PreconditionError

/-- `imex_1st_order.update_nodes`: fail on a locked level, otherwise run
the sweep body. -/
def update_nodes (S : Sweeper) (P : Problem) (cdc : FloatCodec) (flip : Bool)
    (L : Level) (g : RNG) : Except SweepError SwState :=
  if L.status.unlocked then Except.ok (sweep_body S P cdc flip L g)
  else Except.error SweepError.PreconditionError

/-- `imex_1st_order.compute_end_point` (source lines 182-207): copy `u[M]`
when the right interval end is a collocation node, otherwise start from
`u[0]`, add `dt * weights[m] * (f[m+1].impl + f[m+1].expl)` for
m = 0..M-1, and add the last tau entry when `tau` is present. -/
def compute_end_point (S : Sweeper) (L : Level) : Level :=
  if S.coll.right_is_node then
    { L with uend := L.u S.coll.num_nodes }
  else
    let v := (List.range S.coll.num_nodes).foldl
      (fun acc m => acc + (L.dt * S.coll.weights m) • ((L.f (m + 1)).impl + (L.f (m + 1)).expl))
      (L.u 0)
    match L.tau with
    | some τ => { L with uend := v + τ (S.coll.num_nodes - 1) }
    | none => { L with uend := v }

/-- Frame relation between two sweep states during the loop at node m
(0-based): all level fields except `u`, `f`, `oldres` at index m+1 agree,
and at most `d` additional implicit solves were performed. -/
def frame_ok (m : Nat) (st st2 : SwState) (d : Nat) : Prop :=
  (∀ k, k ≠ m + 1 →
    st2.L.u k = st.L.u k ∧ st2.L.f k = st.L.f k ∧ st2.L.oldres k = st.L.oldres k) ∧
  st2.L.tau = st.L.tau ∧ st2.L.dt = st.L.dt ∧ st2.L.time = st.L.time ∧
  st2.L.uend = st.L.uend ∧ st2.L.status = st.L.status ∧
  st2.solves ≤ st.solves + d

/-- The f/u consistency invariant up to node n: at every node m = 1..n the
stored right-hand side is the evaluation of the current solution value at
that node's time. -/
def fu_consistent (S : Sweeper) (P : Problem) (n : Nat) (st : SwState) : Prop :=
  ∀ m, 1 ≤ m → m ≤ n →
    st.L.f m = P.eval_f (st.L.u m) (st.L.time + st.L.dt * S.coll.nodes (m - 1))

/-- Well-formedness of one logged fault-injection event: bit position
below 31, spatial index below `nvars`, corrupted value obtained by a
single bit flip of the original, node within 1..M. -/
def events_ok (P : Problem) (cdc : FloatCodec) (M : Nat) (e : InjEvent) : Prop :=
  e.pos < 31 ∧ e.index < P.nvars ∧ e.post = do_bitflip cdc e.pre e.pos ∧
  1 ≤ e.node ∧ e.node ≤ M

/-- The single-injection invariant: no event is logged before the
`bitflipped` note is set, at most one event is ever logged, and every
logged event is well-formed. -/
def inv7 (P : Problem) (cdc : FloatCodec) (M : Nat) (st : SwState) : Prop :=
  (st.bitflipped = false → st.events = []) ∧
  st.events.length ≤ 1 ∧
  ∀ e ∈ st.events, events_ok P cdc M e

/-- Modelled from the spec: the right-hand side exactly as §4.1 step 4
words it, `integral[m-1] + dt*sum_{j=1}^{m} (QI[m,j]*f[j].impl +
QE[m,j]*f[j].expl)` for the 1-based node `mi` (the sum over j = 1..mi is
written as a shifted sum over j = 0..mi-1).  Kept for comparison with
`rhs_node`, the definition translated from the source. -/
def rhs_node_spec (S : Sweeper) (L : Level) (intg : SV) (mi : Nat) : SV :=
  intg + ∑ j ∈ Finset.range mi,
    L.dt • (S.QI mi (j + 1) • (L.f (j + 1)).impl + S.QE mi (j + 1) • (L.f (j + 1)).expl)

/-- A concrete one-node collocation table used to evaluate the theorems:
M = 1, zero quadrature matrix, unit spacing. -/
def cColl : Coll :=
  { num_nodes := 1, Qmat := fun _ _ => 0, delta_m := fun _ => 1,
    nodes := fun _ => 0, weights := fun _ => 1, right_is_node := true }

/-- The sweeper built on `cColl`. -/
def cS : Sweeper := imex_1st_order cColl

/-- A concrete one-variable problem whose implicit solve returns the rhs
unchanged and whose rhs evaluation is identically zero: it makes the rhs
handed to the solver directly observable as the new node value. -/
def cP : Problem :=
  { nvars := 1, solve_system := fun rhs _ _ => rhs, eval_f := fun _ _ => ⟨0, 0⟩ }

/-- A concrete (degenerate) float codec for evaluating the theorems. -/
def cCdc : FloatCodec := ⟨fun _ => 0, fun _ => 0⟩

/-- A concrete unlocked level: zero states, `f[0].expl` constantly one,
unit step size. -/
def cL : Level :=
  { u := fun _ => 0,
    f := fun j => if j = 0 then ⟨0, fun _ => 1⟩ else ⟨0, 0⟩,
    oldres := fun _ => 0, tau := none, dt := 1, time := 0, uend := 0,
    status := ⟨true, false⟩ }

/-- `cL` with the `unlocked` flag cleared. -/
def cLocked : Level := { cL with status := ⟨false, false⟩ }

/-- `cL` with an identically zero right-hand side at every node. -/
def cZero : Level := { cL with f := fun _ => ⟨0, 0⟩ }

/-- A concrete draw stream returning 1 forever (so the fault-injection
coin flip succeeds at the first opportunity). -/
def cg : RNG := ⟨fun _ => 1, 0⟩

theorem foldl_add_eq {A : Type} [AddCommMonoid A] (g : Nat → A) :
    ∀ (l : List Nat) (v : A), l.foldl (fun acc j => acc + g j) v = v + (l.map g).sum := by
  intro l
  induction l with
  | nil => intro v; simp
  | cons a t ih => intro v; simp [ih, add_assoc]

theorem foldl_sub_eq {A : Type} [AddCommGroup A] (g : Nat → A) :
    ∀ (l : List Nat) (v : A), l.foldl (fun acc j => acc - g j) v = v - (l.map g).sum := by
  intro l
  induction l with
  | nil => intro v; simp
  | cons a t ih => intro v; simp [ih, sub_sub]

theorem sum_map_range' {A : Type} [AddCommMonoid A] (g : Nat → A) :
    ∀ (n a : Nat), ((List.range' a n).map g).sum = ∑ j ∈ Finset.range n, g (a + j) := by
  intro n
  induction n with
  | zero => intro a; simp
  | succ n ih =>
    intro a
    rw [List.range'_succ]
    simp only [List.map_cons, List.sum_cons, ih (a + 1)]
    rw [Finset.sum_range_succ']
    have h1 : ∀ j, a + 1 + j = a + (j + 1) := fun j => by omega
    simp only [h1, Nat.add_zero]
    exact add_comm _ _

theorem foldl_add_range' {A : Type} [AddCommMonoid A] (g : Nat → A) (a n : Nat) (v : A) :
    (List.range' a n).foldl (fun acc j => acc + g j) v = v + ∑ j ∈ Finset.range n, g (a + j) := by
  rw [foldl_add_eq, sum_map_range']

theorem foldl_add_range {A : Type} [AddCommMonoid A] (g : Nat → A) (n : Nat) (v : A) :
    (List.range n).foldl (fun acc j => acc + g j) v = v + ∑ j ∈ Finset.range n, g j := by
  rw [List.range_eq_range', foldl_add_range']
  simp

theorem foldl_sub_range {A : Type} [AddCommGroup A] (g : Nat → A) (n : Nat) (v : A) :
    (List.range n).foldl (fun acc j => acc - g j) v = v - ∑ j ∈ Finset.range n, g j := by
  rw [foldl_sub_eq, List.range_eq_range', sum_map_range']
  simp

theorem getD_map_range' (f : Nat → SV) (a n m : Nat) (hm : m < n) :
    ((List.range' a n).map f).getD m 0 = f (a + m) := by
  rw [List.getD_eq_getElem?_getD, List.getElem?_map]
  have hlen : m < (List.range' a n).length := by simpa using hm
  rw [List.getElem?_eq_getElem hlen]
  simp [List.getElem_range']

theorem getD_map_range (f : Nat → SV) (n m : Nat) (hm : m < n) :
    ((List.range n).map f).getD m 0 = f m := by
  rw [List.range_eq_range', getD_map_range' _ _ _ _ hm]
  simp

theorem get_Qd_foldl_ge (c : Coll) : ∀ (n i j : Nat), n ≤ i →
    ((List.range n).foldl (QdStep c) (fun _ _ => 0, fun _ _ => 0)).1 i j = 0 ∧
    ((List.range n).foldl (QdStep c) (fun _ _ => 0, fun _ _ => 0)).2 i j = 0 := by
  intro n
  induction n with
  | zero => intro i j _; simp
  | succ n ih =>
    intro i j h
    rw [List.range_succ, List.foldl_append, List.foldl_cons, List.foldl_nil]
    have hne : ¬ i = n := by omega
    constructor
    · simp only [QdStep, setSlice, hne, false_and, if_false]
      exact (ih i j (by omega)).1
    · simp only [QdStep, setSlice, hne, false_and, if_false]
      exact (ih i j (by omega)).2

theorem get_Qd_foldl_lt (c : Coll) : ∀ (n i j : Nat), i < n →
    ((List.range n).foldl (QdStep c) (fun _ _ => 0, fun _ _ => 0)).1 i j =
      (if 1 ≤ j ∧ j ≤ i then c.delta_m (j - 1) else 0) ∧
    ((List.range n).foldl (QdStep c) (fun _ _ => 0, fun _ _ => 0)).2 i j =
      (if j < i then c.delta_m j else 0) := by
  intro n
  induction n with
  | zero => intro i j h; omega
  | succ n ih =>
    intro i j h
    rw [List.range_succ, List.foldl_append, List.foldl_cons, List.foldl_nil]
    by_cases hi : i = n
    · subst hi
      have h0 := get_Qd_foldl_ge c i i j le_rfl
      have e1 : (1 ≤ j ∧ j < i + 1) ↔ (1 ≤ j ∧ j ≤ i) := by omega
      constructor
      · simp only [QdStep, setSlice, eq_self_iff_true, true_and, h0.1, e1]
      · simp only [QdStep, setSlice, eq_self_iff_true, true_and, Nat.zero_le,
          Nat.sub_zero, h0.2]
    · have hlt : i < n := by omega
      constructor
      · simp only [QdStep, setSlice, hi, false_and, if_false]
        exact (ih i j hlt).1
      · simp only [QdStep, setSlice, hi, false_and, if_false]
        exact (ih i j hlt).2

/-- C5: the IMEX splitting matrices built at sweeper construction satisfy,
for every row m ≤ M, `QI[m, j] = delta_m[j-1]` exactly when 1 ≤ j ≤ m and
0 otherwise (lower-triangular with all-zero first column), and
`QE[m, j] = delta_m[j]` exactly when j < m and 0 otherwise (strictly
lower-triangular). -/
theorem C5_Qd_structure (c : Coll) (m j : Nat) (hm : m ≤ c.num_nodes) :
    (get_Qd c).1 m j = (if 1 ≤ j ∧ j ≤ m then c.delta_m (j - 1) else 0) ∧
    (get_Qd c).2 m j = (if j < m then c.delta_m j else 0) := by
  have := get_Qd_foldl_lt c (c.num_nodes + 1) m j (by omega)
  exact this

/-- Witness for C5 at the concrete table `cColl`, row 1, column 1. -/
theorem C5_Qd_structure_witness :
    (get_Qd cColl).1 1 1 = (if 1 ≤ 1 ∧ 1 ≤ 1 then cColl.delta_m 0 else 0) ∧
    (get_Qd cColl).2 1 1 = (if 1 < 1 then cColl.delta_m 1 else 0) :=
  C5_Qd_structure cColl 1 1 (by decide)

theorem integrate_length (S : Sweeper) (L : Level) :
    (integrate S L).length = S.coll.num_nodes := by
  simp [integrate]

theorem integrate_getD (S : Sweeper) (L : Level) (m : Nat)
    (hm : m < S.coll.num_nodes) :
    (integrate S L).getD m 0 =
      ∑ j ∈ Finset.range S.coll.num_nodes,
        (L.dt * S.coll.Qmat (m + 1) (j + 1)) • ((L.f (j + 1)).impl + (L.f (j + 1)).expl) := by
  unfold integrate
  rw [getD_map_range' _ _ _ _ hm, foldl_add_range', zero_add]
  have h1 : 1 + m = m + 1 := by omega
  rw [h1]
  exact Finset.sum_congr rfl (fun j _ => by rw [Nat.add_comm 1 j])

/-- C3: `integrate()` returns exactly M state vectors, and the m-th entry
(0-based index m, node m+1) equals
`sum_{j=1..M} dt * Qmat[m+1, j] * (f[j].impl + f[j].expl)` (written as a
shifted sum over j = 0..M-1).  The embedding is a pure function of the
level, so determinism and absence of mutation hold by construction. -/
theorem C3_integrate_entries (S : Sweeper) (L : Level) :
    (integrate S L).length = S.coll.num_nodes ∧
    ∀ m, m < S.coll.num_nodes →
      (integrate S L).getD m 0 =
        ∑ j ∈ Finset.range S.coll.num_nodes,
          (L.dt * S.coll.Qmat (m + 1) (j + 1)) • ((L.f (j + 1)).impl + (L.f (j + 1)).expl) :=
  ⟨integrate_length S L, fun m hm => integrate_getD S L m hm⟩

/-- Witness for C3 at the concrete configuration, first node. -/
theorem C3_integrate_entries_witness :
    (integrate cS cL).getD 0 0 =
      ∑ j ∈ Finset.range cS.coll.num_nodes,
        (cL.dt * cS.coll.Qmat 1 (j + 1)) • ((cL.f (j + 1)).impl + (cL.f (j + 1)).expl) :=
  (C3_integrate_entries cS cL).2 0 (by decide)

/-- C10: if every node's split right-hand side is the zero state vector,
every state vector returned by `integrate()` is all-zero. -/
theorem C10_integrate_zero (S : Sweeper) (L : Level)
    (hz : ∀ j, 1 ≤ j → j ≤ S.coll.num_nodes → (L.f j).impl = 0 ∧ (L.f j).expl = 0) :
    ∀ m, m < S.coll.num_nodes → (integrate S L).getD m 0 = 0 := by
  intro m hm
  rw [integrate_getD S L m hm]
  refine Finset.sum_eq_zero (fun j hj => ?_)
  have hjM : j < S.coll.num_nodes := Finset.mem_range.mp hj
  have h := hz (j + 1) (by omega) (by omega)
  rw [h.1, h.2, add_zero, smul_zero]

/-- Witness for C10 on the concrete level with identically zero rhs. -/
theorem C10_integrate_zero_witness : (integrate cS cZero).getD 0 0 = 0 :=
  C10_integrate_zero cS cZero (fun j _ _ => ⟨rfl, rfl⟩) 0 (by decide)

/-- C4: `compute_end_point` sets `uend` to `u[M]` when the collocation
rule's right end is a node, and otherwise to
`u[0] + sum_{m=0..M-1} dt * weights[m] * (f[m+1].impl + f[m+1].expl)`,
plus the last tau entry when `tau` is present. -/
theorem C4_compute_end_point (S : Sweeper) (L : Level) :
    (compute_end_point S L).uend =
      if S.coll.right_is_node then L.u S.coll.num_nodes
      else
        L.u 0 +
          (∑ m ∈ Finset.range S.coll.num_nodes,
            (L.dt * S.coll.weights m) • ((L.f (m + 1)).impl + (L.f (m + 1)).expl)) +
          (match L.tau with
           | some τ => τ (S.coll.num_nodes - 1)
           | none => 0) := by
  unfold compute_end_point
  by_cases hr : S.coll.right_is_node = true
  · simp [hr]
  · cases htau : L.tau with
    | none => simp [hr, htau, foldl_add_range]
    | some τ => simp [hr, htau, foldl_add_range]

/-- C6: `update_nodes` on a locked level fails with the precondition
error and performs no update; on an unlocked level the failure branch is
not taken and the sweep body runs. -/
theorem C6_unlocked_guard (S : Sweeper) (P : Problem) (cdc : FloatCodec)
    (flip : Bool) (L : Level) (g : RNG) :
    (L.status.unlocked = false →
      update_nodes S P cdc flip L g = Except.error SweepError.PreconditionError) ∧
    (L.status.unlocked = true →
      update_nodes S P cdc flip L g = Except.ok (sweep_body S P cdc flip L g)) := by
  constructor <;> intro h <;> simp [update_nodes, h]

/-- Witness for C6: the concrete locked level is rejected. -/
theorem C6_unlocked_guard_witness :
    update_nodes cS cP cCdc false cLocked cg =
      Except.error SweepError.PreconditionError :=
  (C6_unlocked_guard cS cP cCdc false cLocked cg).1 rfl

theorem flip_block_u (P : Problem) (cdc : FloatCodec) (m : Nat) (flip : Bool)
    (st : SwState) : (flip_block P cdc m flip st).L.u = st.L.u := by
  simp only [flip_block]
  split_ifs <;> rfl

theorem flip_block_f_ne (P : Problem) (cdc : FloatCodec) (m : Nat) (flip : Bool)
    (st : SwState) (k : Nat) (h : k ≠ m + 1) :
    (flip_block P cdc m flip st).L.f k = st.L.f k := by
  simp only [flip_block]
  split_ifs <;> simp [Function.update_noteq h]

theorem flip_block_oldres (P : Problem) (cdc : FloatCodec) (m : Nat) (flip : Bool)
    (st : SwState) : (flip_block P cdc m flip st).L.oldres = st.L.oldres := by
  simp only [flip_block]
  split_ifs <;> rfl

theorem flip_block_tau (P : Problem) (cdc : FloatCodec) (m : Nat) (flip : Bool)
    (st : SwState) : (flip_block P cdc m flip st).L.tau = st.L.tau := by
  simp only [flip_block]
  split_ifs <;> rfl

theorem flip_block_dt (P : Problem) (cdc : FloatCodec) (m : Nat) (flip : Bool)
    (st : SwState) : (flip_block P cdc m flip st).L.dt = st.L.dt := by
  simp only [flip_block]
  split_ifs <;> rfl

theorem flip_block_time (P : Problem) (cdc : FloatCodec) (m : Nat) (flip : Bool)
    (st : SwState) : (flip_block P cdc m flip st).L.time = st.L.time := by
  simp only [flip_block]
  split_ifs <;> rfl

theorem flip_block_uend (P : Problem) (cdc : FloatCodec) (m : Nat) (flip : Bool)
    (st : SwState) : (flip_block P cdc m flip st).L.uend = st.L.uend := by
  simp only [flip_block]
  split_ifs <;> rfl

theorem flip_block_status (P : Problem) (cdc : FloatCodec) (m : Nat) (flip : Bool)
    (st : SwState) : (flip_block P cdc m flip st).L.status = st.L.status := by
  simp only [flip_block]
  split_ifs <;> rfl

theorem flip_block_solves (P : Problem) (cdc : FloatCodec) (m : Nat) (flip : Bool)
    (st : SwState) : (flip_block P cdc m flip st).solves = st.solves := by
  simp only [flip_block]
  split_ifs <;> rfl

theorem flip_block_false (P : Problem) (cdc : FloatCodec) (m : Nat)
    (st : SwState) : flip_block P cdc m false st = st := by
  simp [flip_block]

theorem attempt_u_eq (S : Sweeper) (P : Problem) (cdc : FloatCodec) (intg : SV)
    (m : Nat) (flip : Bool) (st : SwState) :
    (attempt S P cdc intg m flip st).1.L.u =
      Function.update st.L.u (m + 1)
        (P.solve_system (rhs_node S st.L intg m)
          (st.L.dt * S.QI (m + 1) (m + 1)) (st.L.u (m + 1))) := by
  simp only [attempt]
  rw [flip_block_u]

theorem attempt_u_set (S : Sweeper) (P : Problem) (cdc : FloatCodec) (intg : SV)
    (m : Nat) (flip : Bool) (st : SwState) :
    (attempt S P cdc intg m flip st).1.L.u (m + 1) =
      P.solve_system (rhs_node S st.L intg m)
        (st.L.dt * S.QI (m + 1) (m + 1)) (st.L.u (m + 1)) := by
  rw [attempt_u_eq, Function.update_same]

theorem attempt_u_ne (S : Sweeper) (P : Problem) (cdc : FloatCodec) (intg : SV)
    (m : Nat) (flip : Bool) (st : SwState) (k : Nat) (h : k ≠ m + 1) :
    (attempt S P cdc intg m flip st).1.L.u k = st.L.u k := by
  rw [attempt_u_eq, Function.update_noteq h]

theorem attempt_f_ne (S : Sweeper) (P : Problem) (cdc : FloatCodec) (intg : SV)
    (m : Nat) (flip : Bool) (st : SwState) (k : Nat) (h : k ≠ m + 1) :
    (attempt S P cdc intg m flip st).1.L.f k = st.L.f k := by
  simp only [attempt]
  rw [flip_block_f_ne _ _ _ _ _ _ h]
  exact Function.update_noteq h _ _

theorem attempt_oldres (S : Sweeper) (P : Problem) (cdc : FloatCodec) (intg : SV)
    (m : Nat) (flip : Bool) (st : SwState) :
    (attempt S P cdc intg m flip st).1.L.oldres = st.L.oldres := by
  simp only [attempt]
  rw [flip_block_oldres]

theorem attempt_tau (S : Sweeper) (P : Problem) (cdc : FloatCodec) (intg : SV)
    (m : Nat) (flip : Bool) (st : SwState) :
    (attempt S P cdc intg m flip st).1.L.tau = st.L.tau := by
  simp only [attempt]
  rw [flip_block_tau]

theorem attempt_dt (S : Sweeper) (P : Problem) (cdc : FloatCodec) (intg : SV)
    (m : Nat) (flip : Bool) (st : SwState) :
    (attempt S P cdc intg m flip st).1.L.dt = st.L.dt := by
  simp only [attempt]
  rw [flip_block_dt]

theorem attempt_time (S : Sweeper) (P : Problem) (cdc : FloatCodec) (intg : SV)
    (m : Nat) (flip : Bool) (st : SwState) :
    (attempt S P cdc intg m flip st).1.L.time = st.L.time := by
  simp only [attempt]
  rw [flip_block_time]

theorem attempt_uend (S : Sweeper) (P : Problem) (cdc : FloatCodec) (intg : SV)
    (m : Nat) (flip : Bool) (st : SwState) :
    (attempt S P cdc intg m flip st).1.L.uend = st.L.uend := by
  simp only [attempt]
  rw [flip_block_uend]

theorem attempt_status (S : Sweeper) (P : Problem) (cdc : FloatCodec) (intg : SV)
    (m : Nat) (flip : Bool) (st : SwState) :
    (attempt S P cdc intg m flip st).1.L.status = st.L.status := by
  simp only [attempt]
  rw [flip_block_status]

theorem attempt_solves (S : Sweeper) (P : Problem) (cdc : FloatCodec) (intg : SV)
    (m : Nat) (flip : Bool) (st : SwState) :
    (attempt S P cdc intg m flip st).1.solves = st.solves + 1 := by
  simp only [attempt]

theorem attempt_snd (S : Sweeper) (P : Problem) (cdc : FloatCodec) (intg : SV)
    (m : Nat) (flip : Bool) (st : SwState) :
    (attempt S P cdc intg m flip st).2 =
      normInf P.nvars
        (residual_node S (attempt S P cdc intg m flip st).1.L (m + 1)) := by
  simp only [attempt]

theorem attempt_f_set (S : Sweeper) (P : Problem) (cdc : FloatCodec) (intg : SV)
    (m : Nat) (st : SwState) :
    (attempt S P cdc intg m false st).1.L.f (m + 1) =
      P.eval_f ((attempt S P cdc intg m false st).1.L.u (m + 1))
        (st.L.time + st.L.dt * S.coll.nodes m) := by
  rw [attempt_u_set]
  simp only [attempt, flip_block_false]
  exact Function.update_same _ _ _

theorem attempt_frame (S : Sweeper) (P : Problem) (cdc : FloatCodec) (intg : SV)
    (m : Nat) (flip : Bool) (st : SwState) :
    frame_ok m st (attempt S P cdc intg m flip st).1 1 := by
  refine ⟨fun k hk => ⟨attempt_u_ne _ _ _ _ _ _ _ _ hk, attempt_f_ne _ _ _ _ _ _ _ _ hk, ?_⟩,
    attempt_tau _ _ _ _ _ _ _, attempt_dt _ _ _ _ _ _ _, attempt_time _ _ _ _ _ _ _,
    attempt_uend _ _ _ _ _ _ _, attempt_status _ _ _ _ _ _ _, ?_⟩
  · rw [attempt_oldres]
  · rw [attempt_solves]

theorem set_oldres_frame (st : SwState) (m : Nat) (r : ℚ) :
    frame_ok m st (set_oldres st (m + 1) r) 0 := by
  refine ⟨fun k hk => ⟨rfl, rfl, ?_⟩, rfl, rfl, rfl, rfl, rfl, le_rfl⟩
  exact Function.update_noteq hk _ _

theorem frame_ok_trans (m : Nat) (st1 st2 st3 : SwState) (d1 d2 : Nat)
    (h1 : frame_ok m st1 st2 d1) (h2 : frame_ok m st2 st3 d2) :
    frame_ok m st1 st3 (d1 + d2) := by
  obtain ⟨hk1, ht1, hd1, hm1, he1, hs1, hn1⟩ := h1
  obtain ⟨hk2, ht2, hd2, hm2, he2, hs2, hn2⟩ := h2
  refine ⟨fun k hk => ?_, ht2.trans ht1, hd2.trans hd1, hm2.trans hm1,
    he2.trans he1, hs2.trans hs1, by omega⟩
  obtain ⟨a1, b1, c1⟩ := hk1 k hk
  obtain ⟨a2, b2, c2⟩ := hk2 k hk
  exact ⟨a2.trans a1, b2.trans b1, c2.trans c1⟩

theorem frame_ok_refl (m : Nat) (st : SwState) (d : Nat) :
    frame_ok m st st d := by
  exact ⟨fun k _ => ⟨rfl, rfl, rfl⟩, rfl, rfl, rfl, rfl, rfl, by omega⟩

theorem node_loop_frame (S : Sweeper) (P : Problem) (cdc : FloatCodec) (intg : SV)
    (m : Nat) (flip : Bool) :
    ∀ (fuel loop : Nat) (st : SwState),
      frame_ok m st (node_loop S P cdc intg m flip fuel loop st) fuel := by
  intro fuel
  induction fuel with
  | zero => intro loop st; exact frame_ok_refl m st 0
  | succ fuel ih =>
    intro loop st
    show frame_ok m st (node_loop S P cdc intg m flip (fuel + 1) loop st) (fuel + 1)
    rw [node_loop]
    by_cases hl : loop < 2
    · rw [if_pos hl]
      by_cases hc : loop = 0 ∧ (attempt S P cdc intg m flip st).2 >
          (attempt S P cdc intg m flip st).1.L.oldres (m + 1)
      · rw [if_pos hc]
        have h1 := attempt_frame S P cdc intg m flip st
        have h2 := ih 1 (attempt S P cdc intg m flip st).1
        have := frame_ok_trans m _ _ _ 1 fuel h1 h2
        simpa [Nat.add_comm] using this
      · rw [if_neg hc]
        have h1 := attempt_frame S P cdc intg m flip st
        have h1b := set_oldres_frame (attempt S P cdc intg m flip st).1 m
          (attempt S P cdc intg m flip st).2
        have h2 := ih 2 (set_oldres (attempt S P cdc intg m flip st).1 (m + 1)
          (attempt S P cdc intg m flip st).2)
        have := frame_ok_trans m _ _ _ 1 fuel (frame_ok_trans m _ _ _ 1 0 h1 h1b) h2
        simpa [Nat.add_comm] using this
    · rw [if_neg hl]
      exact frame_ok_refl m st (fuel + 1)

theorem sweep_fold_succ (S : Sweeper) (P : Problem) (cdc : FloatCodec)
    (flip : Bool) (igl : List SV) (n : Nat) (st0 : SwState) :
    sweep_fold S P cdc flip igl (n + 1) st0 =
      node_loop S P cdc (igl.getD n 0) n flip 2 0
        (sweep_fold S P cdc flip igl n st0) := by
  unfold sweep_fold
  rw [List.range_succ, List.foldl_append]
  rfl

theorem sweep_fold_frame (S : Sweeper) (P : Problem) (cdc : FloatCodec)
    (flip : Bool) (igl : List SV) :
    ∀ (n : Nat) (st0 : SwState),
      (∀ k, k = 0 ∨ n < k →
        (sweep_fold S P cdc flip igl n st0).L.u k = st0.L.u k ∧
        (sweep_fold S P cdc flip igl n st0).L.f k = st0.L.f k ∧
        (sweep_fold S P cdc flip igl n st0).L.oldres k = st0.L.oldres k) ∧
      (sweep_fold S P cdc flip igl n st0).L.tau = st0.L.tau ∧
      (sweep_fold S P cdc flip igl n st0).L.dt = st0.L.dt ∧
      (sweep_fold S P cdc flip igl n st0).L.time = st0.L.time ∧
      (sweep_fold S P cdc flip igl n st0).L.uend = st0.L.uend ∧
      (sweep_fold S P cdc flip igl n st0).L.status = st0.L.status ∧
      (sweep_fold S P cdc flip igl n st0).solves ≤ st0.solves + 2 * n := by
  intro n
  induction n with
  | zero =>
    intro st0
    exact ⟨fun k _ => ⟨rfl, rfl, rfl⟩, rfl, rfl, rfl, rfl, rfl, le_rfl⟩
  | succ n ih =>
    intro st0
    rw [sweep_fold_succ]
    obtain ⟨hk2, ht2, hd2, hm2, he2, hs2, hn2⟩ :=
      node_loop_frame S P cdc (igl.getD n 0) n flip 2 0
        (sweep_fold S P cdc flip igl n st0)
    obtain ⟨hk1, ht1, hd1, hm1, he1, hs1, hn1⟩ := ih st0
    refine ⟨fun k hk => ?_, ht2.trans ht1, hd2.trans hd1, hm2.trans hm1,
      he2.trans he1, hs2.trans hs1, by omega⟩
    have hkne : k ≠ n + 1 := by omega
    have hk' : k = 0 ∨ n < k := by omega
    obtain ⟨a2, b2, c2⟩ := hk2 k hkne
    obtain ⟨a1, b1, c1⟩ := hk1 k hk'
    exact ⟨a2.trans a1, b2.trans b1, c2.trans c1⟩

/-- C9: `update_nodes` writes only `u[1..M]`, `f[1..M]`, `oldres[1..M]`
and `status.updated`: the initial value `u[0]` and its rhs `f[0]`, all
entries above M, `tau`, `dt`, `time`, `uend` and the `unlocked` flag are
unchanged, and `status.updated` is true on exit. -/
theorem C9_frame (S : Sweeper) (P : Problem) (cdc : FloatCodec) (flip : Bool)
    (L : Level) (g : RNG) :
    ∀ out, update_nodes S P cdc flip L g = Except.ok out →
      out.L.u 0 = L.u 0 ∧ out.L.f 0 = L.f 0 ∧ out.L.oldres 0 = L.oldres 0 ∧
      (∀ k, S.coll.num_nodes < k →
        out.L.u k = L.u k ∧ out.L.f k = L.f k ∧ out.L.oldres k = L.oldres k) ∧
      out.L.tau = L.tau ∧ out.L.dt = L.dt ∧ out.L.time = L.time ∧
      out.L.uend = L.uend ∧ out.L.status.unlocked = L.status.unlocked ∧
      out.L.status.updated = true := by
  intro out h
  unfold update_nodes at h
  by_cases hu : L.status.unlocked = true
  · rw [if_pos hu] at h
    have hout : out = sweep_body S P cdc flip L g := by
      cases h
      rfl
    subst hout
    obtain ⟨hk, ht, hd, hm, he, hs, _⟩ :=
      sweep_fold_frame S P cdc flip (prepare_integral S L) S.coll.num_nodes
        ⟨L, g, false, [], 0⟩
    refine ⟨(hk 0 (Or.inl rfl)).1, (hk 0 (Or.inl rfl)).2.1, (hk 0 (Or.inl rfl)).2.2,
      fun k hkM => hk k (Or.inr hkM), ht, hd, hm, he, ?_, ?_⟩
    · show ({(sweep_fold S P cdc flip (prepare_integral S L) S.coll.num_nodes
        ⟨L, g, false, [], 0⟩).L.status with updated := true}).unlocked = L.status.unlocked
      rw [hs]
    · rfl
  · rw [if_neg hu] at h
    cases h

/-- Witness for C9 at the concrete configuration. -/
theorem C9_frame_witness :
    (sweep_body cS cP cCdc false cL cg).L.u 0 = cL.u 0 :=
  (C9_frame cS cP cCdc false cL cg (sweep_body cS cP cCdc false cL cg) rfl).1

theorem node_loop_at2 (S : Sweeper) (P : Problem) (cdc : FloatCodec) (intg : SV)
    (m : Nat) (flip : Bool) :
    ∀ (fuel : Nat) (st : SwState), node_loop S P cdc intg m flip fuel 2 st = st := by
  intro fuel st
  cases fuel with
  | zero => rfl
  | succ fuel =>
    rw [node_loop, if_neg (by omega : ¬ (2 : Nat) < 2)]

theorem node_loop_at1 (S : Sweeper) (P : Problem) (cdc : FloatCodec) (intg : SV)
    (m : Nat) (flip : Bool) (fuel : Nat) (st : SwState) :
    node_loop S P cdc intg m flip (fuel + 1) 1 st =
      set_oldres (attempt S P cdc intg m flip st).1 (m + 1)
        (attempt S P cdc intg m flip st).2 := by
  rw [node_loop, if_pos (by omega : (1 : Nat) < 2)]
  rw [if_neg (by simp : ¬((1 : Nat) = 0 ∧
    (attempt S P cdc intg m flip st).2 > (attempt S P cdc intg m flip st).1.L.oldres (m + 1)))]
  exact node_loop_at2 S P cdc intg m flip fuel _

theorem node_loop_at0 (S : Sweeper) (P : Problem) (cdc : FloatCodec) (intg : SV)
    (m : Nat) (flip : Bool) (fuel : Nat) (st : SwState) :
    node_loop S P cdc intg m flip (fuel + 2) 0 st =
      (if (attempt S P cdc intg m flip st).2 >
          (attempt S P cdc intg m flip st).1.L.oldres (m + 1) then
        set_oldres
          (attempt S P cdc intg m flip (attempt S P cdc intg m flip st).1).1 (m + 1)
          (attempt S P cdc intg m flip (attempt S P cdc intg m flip st).1).2
      else
        set_oldres (attempt S P cdc intg m flip st).1 (m + 1)
          (attempt S P cdc intg m flip st).2) := by
  rw [show fuel + 2 = (fuel + 1) + 1 from rfl, node_loop,
    if_pos (by omega : (0 : Nat) < 2)]
  by_cases h : (attempt S P cdc intg m flip st).2 >
      (attempt S P cdc intg m flip st).1.L.oldres (m + 1)
  · rw [if_pos ⟨rfl, h⟩, if_pos h, node_loop_at1]
  · rw [if_neg (fun hc => h hc.2), if_neg h, node_loop_at2]

theorem node_loop_two (S : Sweeper) (P : Problem) (cdc : FloatCodec) (intg : SV)
    (m : Nat) (flip : Bool) (st : SwState) :
    node_loop S P cdc intg m flip 2 0 st =
      (if (attempt S P cdc intg m flip st).2 >
          (attempt S P cdc intg m flip st).1.L.oldres (m + 1) then
        set_oldres
          (attempt S P cdc intg m flip (attempt S P cdc intg m flip st).1).1 (m + 1)
          (attempt S P cdc intg m flip (attempt S P cdc intg m flip st).1).2
      else
        set_oldres (attempt S P cdc intg m flip st).1 (m + 1)
          (attempt S P cdc intg m flip st).2) :=
  node_loop_at0 S P cdc intg m flip 0 st

theorem node_loop_fuel_stable (S : Sweeper) (P : Problem) (cdc : FloatCodec)
    (intg : SV) (m : Nat) (flip : Bool) (fuel : Nat) (st : SwState) :
    node_loop S P cdc intg m flip (fuel + 2) 0 st =
      node_loop S P cdc intg m flip 2 0 st := by
  rw [node_loop_at0, node_loop_two]

theorem set_oldres_L_u (st : SwState) (mi : Nat) (r : ℚ) :
    (set_oldres st mi r).L.u = st.L.u := rfl

theorem set_oldres_L_f (st : SwState) (mi : Nat) (r : ℚ) :
    (set_oldres st mi r).L.f = st.L.f := rfl

theorem node_loop_f_set (S : Sweeper) (P : Problem) (cdc : FloatCodec)
    (intg : SV) (m : Nat) (st : SwState) :
    (node_loop S P cdc intg m false 2 0 st).L.f (m + 1) =
      P.eval_f ((node_loop S P cdc intg m false 2 0 st).L.u (m + 1))
        (st.L.time + st.L.dt * S.coll.nodes m) := by
  rw [node_loop_two]
  by_cases h : (attempt S P cdc intg m false st).2 >
      (attempt S P cdc intg m false st).1.L.oldres (m + 1)
  · rw [if_pos h]
    simp only [set_oldres_L_u, set_oldres_L_f]
    rw [attempt_f_set, attempt_time, attempt_dt]
  · rw [if_neg h]
    simp only [set_oldres_L_u, set_oldres_L_f]
    rw [attempt_f_set]

theorem fu_consistent_frame (S : Sweeper) (P : Problem) (n m : Nat)
    (st st2 : SwState) (d : Nat) (hfr : frame_ok m st st2 d) (hnm : n ≤ m)
    (h : fu_consistent S P n st) : fu_consistent S P n st2 := by
  intro k h1 hk
  have hkne : k ≠ m + 1 := by omega
  obtain ⟨hu, hf, _⟩ := hfr.1 k hkne
  rw [hu, hf, hfr.2.2.1, hfr.2.2.2.1]
  exact h k h1 hk

theorem fu_consistent_extend (S : Sweeper) (P : Problem) (cdc : FloatCodec)
    (intg : SV) (n : Nat) (st : SwState) (h : fu_consistent S P n st) :
    fu_consistent S P (n + 1) (node_loop S P cdc intg n false 2 0 st) := by
  intro k h1 hk
  by_cases hkn : k = n + 1
  · subst hkn
    have hfr := node_loop_frame S P cdc intg n false 2 0 st
    rw [Nat.add_sub_cancel, hfr.2.2.1, hfr.2.2.2.1]
    exact node_loop_f_set S P cdc intg n st
  · have hkn' : k ≤ n := by omega
    exact fu_consistent_frame S P n n st _ 2
      (node_loop_frame S P cdc intg n false 2 0 st) le_rfl h k h1 hkn'

theorem sweep_fold_consistent (S : Sweeper) (P : Problem) (cdc : FloatCodec)
    (igl : List SV) :
    ∀ (n : Nat) (st0 : SwState),
      fu_consistent S P n (sweep_fold S P cdc false igl n st0) := by
  intro n
  induction n with
  | zero => intro st0 k h1 hk; omega
  | succ n ih =>
    intro st0
    rw [sweep_fold_succ]
    exact fu_consistent_extend S P cdc (igl.getD n 0) n _ (ih st0)

theorem sweep_body_L_f (S : Sweeper) (P : Problem) (cdc : FloatCodec)
    (flip : Bool) (L : Level) (g : RNG) :
    (sweep_body S P cdc flip L g).L.f =
      (sweep_fold S P cdc flip (prepare_integral S L) S.coll.num_nodes
        ⟨L, g, false, [], 0⟩).L.f := rfl

theorem sweep_body_L_u (S : Sweeper) (P : Problem) (cdc : FloatCodec)
    (flip : Bool) (L : Level) (g : RNG) :
    (sweep_body S P cdc flip L g).L.u =
      (sweep_fold S P cdc flip (prepare_integral S L) S.coll.num_nodes
        ⟨L, g, false, [], 0⟩).L.u := rfl

theorem sweep_body_solves (S : Sweeper) (P : Problem) (cdc : FloatCodec)
    (flip : Bool) (L : Level) (g : RNG) :
    (sweep_body S P cdc flip L g).solves =
      (sweep_fold S P cdc flip (prepare_integral S L) S.coll.num_nodes
        ⟨L, g, false, [], 0⟩).solves := rfl

theorem sweep_body_events (S : Sweeper) (P : Problem) (cdc : FloatCodec)
    (flip : Bool) (L : Level) (g : RNG) :
    (sweep_body S P cdc flip L g).events =
      (sweep_fold S P cdc flip (prepare_integral S L) S.coll.num_nodes
        ⟨L, g, false, [], 0⟩).events := rfl

/-- C8: after a successful `update_nodes` with fault injection disabled,
every node's stored rhs `f[m]` is the problem's rhs evaluation of the
current `u[m]` at time `time + dt * nodes[m-1]`. -/
theorem C8_f_u_consistency (S : Sweeper) (P : Problem) (cdc : FloatCodec)
    (L : Level) (g : RNG) :
    ∀ out, update_nodes S P cdc false L g = Except.ok out →
      ∀ m, 1 ≤ m → m ≤ S.coll.num_nodes →
        out.L.f m = P.eval_f (out.L.u m) (L.time + L.dt * S.coll.nodes (m - 1)) := by
  intro out h m h1 hm
  unfold update_nodes at h
  by_cases hu : L.status.unlocked = true
  · rw [if_pos hu] at h
    have hout : out = sweep_body S P cdc false L g := by
      cases h
      rfl
    subst hout
    have hc := sweep_fold_consistent S P cdc (prepare_integral S L)
      S.coll.num_nodes ⟨L, g, false, [], 0⟩ m h1 hm
    have hfr := sweep_fold_frame S P cdc false (prepare_integral S L)
      S.coll.num_nodes ⟨L, g, false, [], 0⟩
    rw [sweep_body_L_f, sweep_body_L_u, hc, hfr.2.2.1, hfr.2.2.2.1]
  · rw [if_neg hu] at h
    cases h

/-- Witness for C8 at the concrete configuration, node 1. -/
theorem C8_f_u_consistency_witness :
    (sweep_body cS cP cCdc false cL cg).L.f 1 =
      cP.eval_f ((sweep_body cS cP cCdc false cL cg).L.u 1)
        (cL.time + cL.dt * cS.coll.nodes 0) :=
  C8_f_u_consistency cS cP cCdc cL cg (sweep_body cS cP cCdc false cL cg) rfl
    1 (by decide) (by decide)

theorem flip_block_inv7 (P : Problem) (cdc : FloatCodec) (M m : Nat)
    (flip : Bool) (st : SwState) (hn : 0 < P.nvars) (hm : m + 1 ≤ M)
    (h : inv7 P cdc M st) : inv7 P cdc M (flip_block P cdc m flip st) := by
  simp only [flip_block]
  split_ifs with h1 h2
  · have hemp : st.events = [] := h.1 h1.2
    refine ⟨fun hb => absurd hb (by simp), ?_, ?_⟩
    · simp [hemp]
    · intro e he
      simp only [hemp, List.nil_append, List.mem_singleton] at he
      subst he
      refine ⟨Nat.mod_lt _ (by omega), Nat.mod_lt _ hn, rfl, ?_, ?_⟩
      · show 1 ≤ m + 1
        omega
      · show m + 1 ≤ M
        exact hm
  · exact h
  · exact h

theorem attempt_inv7 (S : Sweeper) (P : Problem) (cdc : FloatCodec) (intg : SV)
    (M m : Nat) (flip : Bool) (st : SwState) (hn : 0 < P.nvars)
    (hm : m + 1 ≤ M) (h : inv7 P cdc M st) :
    inv7 P cdc M (attempt S P cdc intg m flip st).1 := by
  simp only [attempt]
  exact flip_block_inv7 P cdc M m flip _ hn hm h

theorem node_loop_inv7 (S : Sweeper) (P : Problem) (cdc : FloatCodec) (intg : SV)
    (M m : Nat) (flip : Bool) (st : SwState) (hn : 0 < P.nvars)
    (hm : m + 1 ≤ M) (h : inv7 P cdc M st) :
    inv7 P cdc M (node_loop S P cdc intg m flip 2 0 st) := by
  rw [node_loop_two]
  by_cases hc : (attempt S P cdc intg m flip st).2 >
      (attempt S P cdc intg m flip st).1.L.oldres (m + 1)
  · rw [if_pos hc]
    exact attempt_inv7 S P cdc intg M m flip _ hn hm
      (attempt_inv7 S P cdc intg M m flip st hn hm h)
  · rw [if_neg hc]
    exact attempt_inv7 S P cdc intg M m flip st hn hm h

theorem sweep_fold_inv7 (S : Sweeper) (P : Problem) (cdc : FloatCodec)
    (flip : Bool) (igl : List SV) (M : Nat) (hn : 0 < P.nvars) :
    ∀ (n : Nat) (st0 : SwState), n ≤ M → inv7 P cdc M st0 →
      inv7 P cdc M (sweep_fold S P cdc flip igl n st0) := by
  intro n
  induction n with
  | zero => intro st0 _ h0; exact h0
  | succ n ih =>
    intro st0 hnM h0
    rw [sweep_fold_succ]
    exact node_loop_inv7 S P cdc (igl.getD n 0) M n flip _ hn (by omega)
      (ih st0 (by omega) h0)

/-- C7: for every draw stream, a successful `update_nodes` call with fault
injection enabled logs at most one injection event, and any logged event
corrupts one entry of `f[node].impl` at a node in 1..M and a spatial index
below `nvars`, replacing the original value by its single-bit flip at a
position below 31 (first coin-flip hit wins; nothing further is injected
in the same sweep). -/
theorem C7_single_injection (S : Sweeper) (P : Problem) (cdc : FloatCodec)
    (L : Level) (g : RNG) (hn : 0 < P.nvars) :
    ∀ out, update_nodes S P cdc true L g = Except.ok out →
      out.events.length ≤ 1 ∧
      ∀ e ∈ out.events,
        e.pos < 31 ∧ e.index < P.nvars ∧
        e.post = do_bitflip cdc e.pre e.pos ∧
        1 ≤ e.node ∧ e.node ≤ S.coll.num_nodes := by
  intro out h
  unfold update_nodes at h
  by_cases hu : L.status.unlocked = true
  · rw [if_pos hu] at h
    have hout : out = sweep_body S P cdc true L g := by
      cases h
      rfl
    subst hout
    have h0 : inv7 P cdc S.coll.num_nodes ⟨L, g, false, [], 0⟩ :=
      ⟨fun _ => rfl, by simp, by simp⟩
    have hinv := sweep_fold_inv7 S P cdc true (prepare_integral S L)
      S.coll.num_nodes hn S.coll.num_nodes ⟨L, g, false, [], 0⟩ le_rfl h0
    rw [sweep_body_events]
    exact ⟨hinv.2.1, hinv.2.2⟩
  · rw [if_neg hu] at h
    cases h

/-- Witness for C7 at the concrete configuration (with the all-ones draw
stream, so the coin-flip hits at the first node). -/
theorem C7_single_injection_witness :
    (sweep_body cS cP cCdc true cL cg).events.length ≤ 1 ∧
    ∀ e ∈ (sweep_body cS cP cCdc true cL cg).events,
      e.pos < 31 ∧ e.index < cP.nvars ∧
      e.post = do_bitflip cCdc e.pre e.pos ∧
      1 ≤ e.node ∧ e.node ≤ cS.coll.num_nodes :=
  C7_single_injection cS cP cCdc cL cg (by decide)
    (sweep_body cS cP cCdc true cL cg) rfl

theorem residual_node_sum (S : Sweeper) (L : Level) (mi : Nat) :
    residual_node S L mi =
      L.u 0 + (∑ j ∈ Finset.range S.coll.num_nodes,
        (L.dt * S.coll.Qmat mi (j + 1)) • ((L.f (j + 1)).impl + (L.f (j + 1)).expl)) -
      L.u mi := by
  unfold residual_node
  rw [foldl_add_range']
  have h1 : ∀ j, 1 + j = j + 1 := fun j => Nat.add_comm 1 j
  simp only [h1]

/-- C1 counterexample: on the concrete configuration (M = 1, `Qmat = 0`,
`delta_m = 1`, `dt = 1`, `u` and `f` zero except `f[0].expl = 1`, no tau,
implicit solve returning its rhs unchanged), the sweep leaves
`u[1] = 0` at index 0, while the solve of the right-hand side as the claim
words it (`integral[0] + dt * (QI[1,1]*f[1].impl + QE[1,1]*f[1].expl)`)
would give -1: the claim's sum `j = 1..m` misses the explicit
`QE[m,0]*f[0].expl` term and wrongly includes the implicit diagonal term. -/
theorem C1_rhs_counterexample :
    (sweep_body cS cP cCdc false cL cg).L.u 1 0 = 0 ∧
    cP.solve_system (rhs_node_spec cS cL ((prepare_integral cS cL).getD 0 0) 1)
      (cL.dt * cS.QI 1 1) (cL.u 1) 0 = -1 := by
  have hr1 : List.range 1 = [0] := rfl
  have hr2 : List.range 2 = [0, 1] := rfl
  have hr1' : List.range' 1 1 = [1] := rfl
  constructor
  · rw [sweep_body_L_u]
    have hM : cS.coll.num_nodes = 1 := rfl
    rw [hM, sweep_fold_succ]
    have h0 : sweep_fold cS cP cCdc false (prepare_integral cS cL) 0
        ⟨cL, cg, false, [], 0⟩ = ⟨cL, cg, false, [], 0⟩ := rfl
    rw [h0, node_loop_two]
    simp only [attempt_snd, attempt_oldres]
    simp [attempt, flip_block, set_oldres, rhs_node, residual_node, normInf,
      prepare_integral, integrate, cS, cP, cCdc, cL, cg, cColl,
      imex_1st_order, get_Qd, QdStep, setSlice, hr1, hr2, hr1', Function.update]
  · simp [rhs_node_spec, prepare_integral, integrate, cS, cP, cL, cColl,
      imex_1st_order, get_Qd, QdStep, setSlice, hr1, hr2, hr1',
      Finset.sum_range_succ, Finset.sum_range_zero]

/-- C1 (amended): at each node m+1 (0-based loop index m) the right-hand
side handed to the implicit solve equals
`integral[m] + dt * sum_{j=0..m} (QI[m+1,j]*f[j].impl + QE[m+1,j]*f[j].expl)`
— the sum runs over the already-known nodes j = 0..m (with row m+1 of QI
having zero first column and QE zero diagonal, so the implicit diagonal
term enters only through the solve factor `dt*QI[m+1,m+1]`, while the
explicit j = 0 term is present); `u[m+1]` becomes the implicit solve of
that rhs with factor `dt*QI[m+1,m+1]` and guess the previous `u[m+1]`;
`f[m+1]` is re-evaluated from the new `u[m+1]` at `time + dt*nodes[m]`;
and the prepared `integral[m]` is `QF(u) - QIFI(u) - QEFE(u) + u[0] + tau[m]`. -/
theorem C1_rhs_amended (S : Sweeper) (P : Problem) (cdc : FloatCodec)
    (flip : Bool) (intg : SV) (m : Nat) (st : SwState) (L : Level) :
    (rhs_node S st.L intg m =
      intg + ∑ j ∈ Finset.range (m + 1),
        st.L.dt • (S.QI (m + 1) j • (st.L.f j).impl + S.QE (m + 1) j • (st.L.f j).expl)) ∧
    ((attempt S P cdc intg m flip st).1.L.u (m + 1) =
      P.solve_system (rhs_node S st.L intg m)
        (st.L.dt * S.QI (m + 1) (m + 1)) (st.L.u (m + 1))) ∧
    (flip = false →
      (attempt S P cdc intg m flip st).1.L.f (m + 1) =
        P.eval_f ((attempt S P cdc intg m flip st).1.L.u (m + 1))
          (st.L.time + st.L.dt * S.coll.nodes m)) ∧
    (∀ mm, mm < S.coll.num_nodes →
      (prepare_integral S L).getD mm 0 =
        (integrate S L).getD mm 0 -
          (∑ j ∈ Finset.range (S.coll.num_nodes + 1),
            L.dt • (S.QI (mm + 1) j • (L.f j).impl + S.QE (mm + 1) j • (L.f j).expl)) +
          L.u 0 +
          (match L.tau with | some τ => τ mm | none => 0)) := by
  refine ⟨?_, attempt_u_set S P cdc intg m flip st, ?_, ?_⟩
  · unfold rhs_node
    rw [foldl_add_range]
  · intro hf
    subst hf
    exact attempt_f_set S P cdc intg m st
  · intro mm hm
    unfold prepare_integral
    rw [getD_map_range _ _ _ hm]
    cases htau : L.tau with
    | none =>
      simp only [htau]
      rw [foldl_sub_range, add_zero]
    | some τ =>
      simp only [htau]
      rw [foldl_sub_range]

/-- Witness for the amended C1 at the concrete configuration. -/
theorem C1_rhs_amended_witness :
    (attempt cS cP cCdc 0 0 false ⟨cL, cg, false, [], 0⟩).1.L.f 1 =
      cP.eval_f ((attempt cS cP cCdc 0 0 false ⟨cL, cg, false, [], 0⟩).1.L.u 1)
        (cL.time + cL.dt * cS.coll.nodes 0) :=
  (C1_rhs_amended cS cP cCdc false 0 0 ⟨cL, cg, false, [], 0⟩ cL).2.2.1 rfl

/-- C2: the per-node retry policy.  The loop result is unchanged by any
extra fuel (the `loop` counter reaches 2 after at most two passes); from
`loop = 0` it performs one solve-and-reevaluate attempt, and exactly when
the fresh residual norm exceeds `oldres[m+1]` it performs a second one,
recording the final attempt's residual into `oldres[m+1]` in either case
(so a still-worse second attempt is accepted anyway); the quantity
compared is the infinity norm of
`u[0] + sum_j dt*Qmat[m+1,j]*(f[j].impl+f[j].expl) - u[m+1]` on the state
after the attempt; and each node performs at most two implicit solves, so
a successful `update_nodes` performs at most 2*M solves. -/
theorem C2_retry_policy (S : Sweeper) (P : Problem) (cdc : FloatCodec)
    (flip : Bool) (intg : SV) (m : Nat) (st : SwState) (L : Level) (g : RNG) :
    (∀ fuel, node_loop S P cdc intg m flip (fuel + 2) 0 st =
      node_loop S P cdc intg m flip 2 0 st) ∧
    (node_loop S P cdc intg m flip 2 0 st =
      (if (attempt S P cdc intg m flip st).2 >
          (attempt S P cdc intg m flip st).1.L.oldres (m + 1) then
        set_oldres
          (attempt S P cdc intg m flip (attempt S P cdc intg m flip st).1).1 (m + 1)
          (attempt S P cdc intg m flip (attempt S P cdc intg m flip st).1).2
      else
        set_oldres (attempt S P cdc intg m flip st).1 (m + 1)
          (attempt S P cdc intg m flip st).2)) ∧
    ((attempt S P cdc intg m flip st).2 =
      normInf P.nvars
        ((attempt S P cdc intg m flip st).1.L.u 0 +
          (∑ j ∈ Finset.range S.coll.num_nodes,
            ((attempt S P cdc intg m flip st).1.L.dt * S.coll.Qmat (m + 1) (j + 1)) •
              (((attempt S P cdc intg m flip st).1.L.f (j + 1)).impl +
               ((attempt S P cdc intg m flip st).1.L.f (j + 1)).expl)) -
          (attempt S P cdc intg m flip st).1.L.u (m + 1))) ∧
    (node_loop S P cdc intg m flip 2 0 st).solves ≤ st.solves + 2 ∧
    (∀ out, update_nodes S P cdc flip L g = Except.ok out →
      out.solves ≤ 2 * S.coll.num_nodes) := by
  refine ⟨fun fuel => node_loop_fuel_stable S P cdc intg m flip fuel st,
    node_loop_two S P cdc intg m flip st, ?_, ?_, ?_⟩
  · rw [attempt_snd, residual_node_sum]
  · exact (node_loop_frame S P cdc intg m flip 2 0 st).2.2.2.2.2.2
  · intro out h
    unfold update_nodes at h
    by_cases hu : L.status.unlocked = true
    · rw [if_pos hu] at h
      have hout : out = sweep_body S P cdc flip L g := by
        cases h
        rfl
      subst hout
      rw [sweep_body_solves]
      have hs := (sweep_fold_frame S P cdc flip (prepare_integral S L)
        S.coll.num_nodes ⟨L, g, false, [], 0⟩).2.2.2.2.2.2
      have h0 : (⟨L, g, false, [], 0⟩ : SwState).solves = 0 := rfl
      omega
    · rw [if_neg hu] at h
      cases h

/-- Witness for C2: the concrete sweep performs at most 2*M solves. -/
theorem C2_retry_policy_witness :
    (sweep_body cS cP cCdc false cL cg).solves ≤ 2 * cS.coll.num_nodes :=
  (C2_retry_policy cS cP cCdc false 0 0 ⟨cL, cg, false, [], 0⟩ cL cg).2.2.2.2
    (sweep_body cS cP cCdc false cL cg) rfl

end PySDC
